import Mathlib

set_option maxHeartbeats 4000000
set_option maxRecDepth 20000

/- Shallow embedding of the transcript-correction core of src/main.py
   (the `correct_text` endpoint, lines 257-426): the chunk splitter
   ("Segmenter", lines 294-319), the per-chunk retry loop ("Corrector",
   lines 336-362), the surrounding orchestration ("Pipeline") and the
   short single-chunk path (lines 366-410).  Python strings are
   sequences of code points, modelled as `List Char`; Python integer
   arithmetic is `Nat`/`Int` arithmetic (`str.rfind` returns `-1` on
   absence, hence `Int` there).  The external generative-language
   service is an oracle parameter: per call it either returns a
   response whose `.text` is some (possibly empty) string, or raises. -/

/-- Whitespace test backing Python's `str.strip()` truthiness check
(`if chunk.strip():`, src/main.py line 317), restricted to the ASCII
whitespace characters; no input in this development uses the further
Unicode spaces Python also strips. -/
def pyIsSpace (c : Char) : Bool :=
  c == ' ' || c == '\t' || c == '\n' || c == '\r' || c == '\x0b' || c == '\x0c'

/-- A Python string `s` has falsy `s.strip()` iff every character is whitespace. -/
def isBlank (s : List Char) : Bool := s.all pyIsSpace

/-- Python slice `t[a:b]` for `0 ≤ a ≤ b` (clamped at the ends, as in Python). -/
def sliceList (t : List Char) (a b : Nat) : List Char := (t.drop a).take (b - a)

/-- Python `s.rfind(c)`: the highest index at which `c` occurs, `-1` if absent. -/
def rfindLast : List Char → Char → Int
  | [], _ => -1
  | x :: xs, c =>
    let r := rfindLast xs c
    if 0 ≤ r then r + 1 else if x == c then 0 else -1

/-- Python `c in s` for a single character `c`. -/
def containsChar (c : Char) (l : List Char) : Bool := l.any (fun x => x == c)

/-- Auxiliary for the substring test: does `p` start the string `s`? -/
def startsWithStr : List Char → List Char → Bool
  | [], _ => true
  | _ :: _, [] => false
  | p :: ps, c :: cs => p == c && startsWithStr ps cs

/-- Python substring test `pat in s`. -/
def containsSub (pat : List Char) : List Char → Bool
  | [] => startsWithStr pat []
  | c :: cs => startsWithStr pat (c :: cs) || containsSub pat cs

/-- Python `str.lower`, character by character. -/
def lowerStr (s : List Char) : List Char := s.map Char.toLower

/-- Python `sep.join(parts)`. -/
def joinSep (sep : List Char) : List (List Char) → List Char
  | [] => []
  | [x] => x
  | x :: y :: xs => x ++ sep ++ joinSep sep (y :: xs)

/-- Python `s.split(sep)` for a one-character separator (keeps empty pieces). -/
def splitOnChar (sep : Char) : List Char → List (List Char)
  | [] => [[]]
  | c :: cs =>
    match splitOnChar sep cs with
    | [] => [[c]]
    | p :: ps => if c == sep then [] :: p :: ps else (c :: p) :: ps

/-- Python `s.strip()` on both ends (ASCII whitespace, see `pyIsSpace`). -/
def stripStr (s : List Char) : List Char :=
  ((s.dropWhile pyIsSpace).reverse.dropWhile pyIsSpace).reverse

/-- Keyword parsing at the top of `correct_text` (src/main.py lines 273-276):
`[k.strip() for k in keywords.split(",") if k.strip()]`, with a falsy
(`None` or empty) keyword string giving the empty list. -/
def parseKeywords : Option (List Char) → List (List Char)
  | none => []
  | some s =>
    if s.isEmpty then []
    else ((splitOnChar ',' s).map stripStr).filter (fun k => !k.isEmpty)

/-- The sentence-ending mark searched for by the Segmenter (src/main.py line 307). -/
def periodChar : Char := '。'

/-- One chunk-boundary computation of the Segmenter (src/main.py lines
298-314), with chunk-size limit `M` (`MAX_CHUNK_SIZE`, 3000 in the
source) and lookahead `L` (500 in the source).  Tentatively
`end = start + M`; if that is still inside the text, prefer the last
`。` in the window `t[start : min (start+M+L) len]` when its offset
exceeds `M / 2`, else the last `'\n'` in `t[start : start+M]` when its
offset exceeds `M / 2`, else the hard cut. -/
def segEnd (M L : Nat) (t : List Char) (start : Nat) : Nat :=
  if start + M < t.length then
    if ((M / 2 : Nat) : Int) < rfindLast (sliceList t start (min (start + M + L) t.length)) periodChar then
      start + (rfindLast (sliceList t start (min (start + M + L) t.length)) periodChar).toNat + 1
    else if containsChar '\n' (sliceList t start (start + M)) then
      if ((M / 2 : Nat) : Int) < rfindLast (sliceList t start (start + M)) '\n' then
        start + (rfindLast (sliceList t start (start + M)) '\n').toNat + 1
      else start + M
    else start + M
  else start + M

/-- The Segmenter's `while start < len(raw_text)` loop (src/main.py lines
297-319), emitting `t[start:end]` whenever it is not whitespace-only and
advancing `start := end`.  The loop is fuelled; one unit of fuel is one
loop iteration, and `t.length` units suffice whenever `0 < M` because
the cursor strictly increases (proved below). -/
def segChunksF (M L : Nat) (t : List Char) : Nat → Nat → List (List Char)
  | _, 0 => []
  | start, fuel + 1 =>
    if start < t.length then
      let e := segEnd M L t start
      let chunk := sliceList t start e
      if isBlank chunk then segChunksF M L t e fuel
      else chunk :: segChunksF M L t e fuel
    else []

/-- The chunk sequence the Segmenter produces for `t`. -/
def segChunks (M L : Nat) (t : List Char) : List (List Char) :=
  segChunksF M L t 0 t.length

/-- The same loop, but recording every emitted window `t[start:end]`
including the whitespace-only ones that line 317 drops; one list entry
per loop iteration. -/
def segSegsF (M L : Nat) (t : List Char) : Nat → Nat → List (List Char)
  | _, 0 => []
  | start, fuel + 1 =>
    if start < t.length then
      sliceList t start (segEnd M L t start) :: segSegsF M L t (segEnd M L t start) fuel
    else []

/-- All windows of the Segmenter's loop over `t` (blank ones included). -/
def segSegs (M L : Nat) (t : List Char) : List (List Char) :=
  segSegsF M L t 0 t.length

/-- Number of iterations the Segmenter's loop performs on `t`. -/
def segIterations (M L : Nat) (t : List Char) : Nat := (segSegs M L t).length

/-- Fixed head of the concise per-chunk instruction payload used on the
multi-chunk path (src/main.py lines 328-334). -/
def chunkPromptHead : List Char :=
  "以下のテキストからフィラーや言い間違いを削除し、自然な文章に修正してください。\n重要: 元のテキストと同じ言語で出力してください（日本語は日本語に、英語は英語に）。翻訳しないでください。\n\n元のテキスト:\n".data

/-- Fixed tail of the per-chunk instruction payload. -/
def chunkPromptTail : List Char := "\n\n修正後:".data

/-- The instruction payload sent to the oracle for one chunk on the
multi-chunk path (src/main.py lines 328-334); the chunk is embedded
verbatim, and the keyword list is not used here. -/
def buildChunkPrompt (chunk : List Char) : List Char :=
  chunkPromptHead ++ chunk ++ chunkPromptTail

/-- Fixed head (role, purpose, language directive) of the richer payload
used on the short single-chunk path (src/main.py lines 368-374). -/
def shortPromptHead : List Char :=
  "役割: あなたは、書き起こしテキストを編集するプロフェッショナルです。\n\n目的: 以下の「生の書き起こしテキスト」から、フィラー（「えー」「あのー」「um」「uh」など）、明らかな言い間違い、重複表現を削除し、不自然な文法や口語表現を修正して、読みやすく自然な文章に清書してください。\n\n重要: 元のテキストと同じ言語で出力してください。日本語のテキストは日本語に、英語のテキストは英語に修正してください。言語を変換したり翻訳したりしないでください。\n\n".data

/-- Head of the keyword-context section appended when the keyword list is
non-empty (src/main.py lines 376-381). -/
def kwSectionHead : List Char :=
  "コンテキスト（文脈）: この会話のトピックは、以下の「キーワード」に関連しています。専門用語や固有名詞は、これらのキーワードを参考に、文脈に沿った適切な漢字や表現に修正してください。\n\n【キーワード】: ".data

/-- Opening of the raw-text section of the short-path payload (line 383). -/
def rawSectionHead : List Char := "【生の書き起こしテキスト】:\n".data

/-- Closing of the raw-text section of the short-path payload (lines 384-387). -/
def rawSectionTail : List Char := "\n\n【清書後のテキスト】:\n".data

/-- The instruction payload sent to the oracle on the short single-chunk
path (src/main.py lines 368-387): role/purpose head, then — only when
the keyword list is non-empty — the keyword-context section with
`', '.join(keyword_list)`, then the raw text embedded verbatim. -/
def buildShortPrompt (rawText : List Char) (kws : List (List Char)) : List Char :=
  shortPromptHead ++
    (if kws.isEmpty then [] else kwSectionHead ++ joinSep (", ".data) kws ++ "\n\n".data) ++
    rawSectionHead ++ rawText ++ rawSectionTail

/-- The payloads sent to the oracle on the multi-chunk path, one per
Segmenter chunk, at the source's constants `MAX_CHUNK_SIZE = 3000`,
lookahead 500 (src/main.py lines 287, 303, 324-334). -/
def multiChunkPrompts (t : List Char) : List (List Char) :=
  (segChunks 3000 500 t).map buildChunkPrompt

/-- Outcome of one oracle call (`model.generate_content(prompt)`): either a
response whose `.text` is the given string (`[]` models an empty or
absent text, i.e. a falsy `response`/`response.text`), or a raised
exception carrying its message. -/
inductive OOutcome where
  | ok (text : List Char)
  | err (msg : List Char)

/-- Did the oracle call raise? -/
def OOutcome.isErr : OOutcome → Bool
  | .ok _ => false
  | .err _ => true

/-- Observable outcome of the per-chunk retry loop: the strings appended to
`corrected_chunks` (one, or none when the attempt budget is 0), the
number of oracle calls made, the total seconds slept (`time.sleep(5)`
between attempts), and the number of errors logged. -/
structure AttemptResult where
  appended : List (List Char)
  calls : Nat
  sleepSec : Nat
  errLogs : Nat
deriving DecidableEq

/-- The Corrector's retry loop for one chunk (src/main.py lines 336-362):
`while retry_count < max_retries and not success`.  `k` is the index of
the next oracle call (the oracle is a stream of outcomes indexed by call
count), and the last argument is the remaining attempt budget
`max_retries - retry_count`.  A non-empty response text is appended; an
empty/absent response text appends the original chunk (success, no
retry); an exception increments `retry_count`, appending the original
chunk when the budget is exhausted and otherwise sleeping 5 seconds and
retrying.  Every exception is logged and none escapes. -/
def retryLoop (oracle : Nat → List Char → OOutcome) (prompt chunk : List Char) :
    Nat → Nat → AttemptResult
  | _, 0 => ⟨[], 0, 0, 0⟩
  | k, r + 1 =>
    match oracle k prompt with
    | .ok text => if text.isEmpty then ⟨[chunk], 1, 0, 0⟩ else ⟨[text], 1, 0, 0⟩
    | .err _ =>
      if r = 0 then ⟨[chunk], 1, 0, 1⟩
      else
        let rest := retryLoop oracle prompt chunk (k + 1) r
        ⟨rest.appended, rest.calls + 1, rest.sleepSec + 5, rest.errLogs + 1⟩

/-- Aggregate observation of the multi-chunk loop over all chunks. -/
structure RunStats where
  results : List (List Char)
  calls : Nat
  sleepSec : Nat
  errLogs : Nat
deriving DecidableEq

/-- The multi-chunk loop `for i, chunk in enumerate(chunks)` (src/main.py
lines 324-362): each chunk is corrected in order with the concise chunk
payload and `max_retries = 2` (line 337), results accumulating into
`corrected_chunks`.  The oracle-call index is threaded left to right. -/
def runChunks (oracle : Nat → List Char → OOutcome) : List (List Char) → Nat → RunStats
  | [], _ => ⟨[], 0, 0, 0⟩
  | c :: cs, k =>
    let a := retryLoop oracle (buildChunkPrompt c) c k 2
    let b := runChunks oracle cs (k + a.calls)
    ⟨a.appended ++ b.results, a.calls + b.calls, a.sleepSec + b.sleepSec, a.errLogs + b.errLogs⟩

/-- The HTTP-level error raised by the short single-chunk path when the
oracle call raises (src/main.py lines 403-410), distinguished by
substring matching on the exception's message. -/
inductive CorrError where
  | apiKey
  | quota
  | timeout
  | generic (msg : List Char)
deriving DecidableEq

/-- Error classification of the short path (src/main.py lines 403-410):
`"API key" in str(e)`, `"quota" in str(e).lower()`,
`"timeout" in str(e).lower() or "deadline" in str(e).lower()`, else generic. -/
def classifyGeminiError (msg : List Char) : CorrError :=
  if containsSub ("API key".data) msg then .apiKey
  else if containsSub ("quota".data) (lowerStr msg) then .quota
  else if containsSub ("timeout".data) (lowerStr msg) ||
          containsSub ("deadline".data) (lowerStr msg) then .timeout
  else .generic msg

/-- The Pipeline of `correct_text` after keyword parsing (src/main.py lines
286-410): when `len(raw_text) > MAX_CHUNK_SIZE` (3000), segment, correct
every chunk with the retry loop, and join the per-chunk results with
`"\n\n"` — no error can escape this branch; otherwise make a single
oracle call with the richer keyword-aware payload, where an empty
response text degrades to the raw text but a raised exception becomes an
HTTP 500 error response. -/
def correctText (oracle : Nat → List Char → OOutcome) (rawText : List Char)
    (keywordList : List (List Char)) : Except CorrError (List Char) :=
  if 3000 < rawText.length then
    Except.ok (joinSep ("\n\n".data) (runChunks oracle (segChunks 3000 500 rawText) 0).results)
  else
    match oracle 0 (buildShortPrompt rawText keywordList) with
    | .ok text => Except.ok (if text.isEmpty then rawText else text)
    | .err msg => Except.error (classifyGeminiError msg)

/-- The full `POST /api/correct` handler body: parse the optional
comma-separated keyword string, then run the Pipeline (src/main.py
lines 257-417). -/
def correctEndpoint (oracle : Nat → List Char → OOutcome) (rawText : List Char)
    (keywords : Option (List Char)) : Except CorrError (List Char) :=
  correctText oracle rawText (parseKeywords keywords)

/-- Example input: 50 blocks of sixteen `a`s followed by a newline
(850 characters; every block boundary is a line break just past half of a
30-character chunk limit). -/
def c7text : List Char := (List.replicate 50 ("aaaaaaaaaaaaaaaa\n".data)).flatten

/-- Example input: 3000 `a`s, then 3000 spaces, then 100 `b`s
(6100 characters; the middle window of the Segmenter is whitespace-only). -/
def c3text : List Char :=
  List.replicate 3000 'a' ++ List.replicate 3000 ' ' ++ List.replicate 100 'b'

/-- Example input: 6000 characters whose only sentence-ending mark sits at
offset 3100, with a non-blank remainder after it. -/
def c8goodText : List Char :=
  List.replicate 3100 'a' ++ [periodChar] ++ List.replicate 2899 'b'

/-- Example input: as `c8goodText` but with a whitespace-only remainder
after the sentence-ending mark. -/
def c8blankText : List Char :=
  List.replicate 3100 'a' ++ [periodChar] ++ List.replicate 2899 ' '

theorem segChunksF_zero (M L : Nat) (t : List Char) (start : Nat) :
    segChunksF M L t start 0 = [] := rfl

theorem segChunksF_succ (M L : Nat) (t : List Char) (start fuel : Nat) :
    segChunksF M L t start (fuel + 1) =
      if start < t.length then
        if isBlank (sliceList t start (segEnd M L t start)) then
          segChunksF M L t (segEnd M L t start) fuel
        else
          sliceList t start (segEnd M L t start) :: segChunksF M L t (segEnd M L t start) fuel
      else [] := rfl

theorem segSegsF_zero (M L : Nat) (t : List Char) (start : Nat) :
    segSegsF M L t start 0 = [] := rfl

theorem segSegsF_succ (M L : Nat) (t : List Char) (start fuel : Nat) :
    segSegsF M L t start (fuel + 1) =
      if start < t.length then
        sliceList t start (segEnd M L t start) :: segSegsF M L t (segEnd M L t start) fuel
      else [] := rfl

theorem segChunksF_stop (M L : Nat) (t : List Char) (start fuel : Nat)
    (h : t.length ≤ start) : segChunksF M L t start fuel = [] := by
  cases fuel with
  | zero => rfl
  | succ n => rw [segChunksF_succ, if_neg (by omega)]

theorem length_sliceList (t : List Char) (a b : Nat) :
    (sliceList t a b).length = min (b - a) (t.length - a) := by
  simp [sliceList]

theorem rfindLast_neg_one_le (l : List Char) (c : Char) : -1 ≤ rfindLast l c := by
  induction l with
  | nil => simp [rfindLast]
  | cons x xs ih =>
    simp only [rfindLast]
    split_ifs <;> omega

theorem rfindLast_lt_length (l : List Char) (c : Char) :
    rfindLast l c < (l.length : Int) := by
  induction l with
  | nil => simp [rfindLast]
  | cons x xs ih =>
    simp only [rfindLast, List.length_cons]
    split_ifs <;> push_cast <;> omega

theorem rfindLast_getElem (l : List Char) (c : Char) (h : 0 ≤ rfindLast l c) :
    l[(rfindLast l c).toNat]? = some c := by
  induction l with
  | nil => simp [rfindLast] at h
  | cons x xs ih =>
    simp only [rfindLast] at h ⊢
    by_cases h0 : 0 ≤ rfindLast xs c
    · rw [if_pos h0]
      have h1 : (rfindLast xs c + 1).toNat = (rfindLast xs c).toNat + 1 := by omega
      rw [h1]
      simpa using ih h0
    · rw [if_neg h0] at h ⊢
      by_cases hxc : x == c
      · rw [if_pos hxc]
        simp only [Int.toNat_zero, List.getElem?_cons_zero, Option.some.injEq]
        exact eq_of_beq hxc
      · rw [if_neg hxc] at h
        omega

theorem segEnd_gt (M L : Nat) (t : List Char) (start : Nat) (hM : 0 < M) :
    start < segEnd M L t start := by
  unfold segEnd
  split_ifs <;> omega

theorem segEnd_le (M L : Nat) (t : List Char) (start : Nat) :
    segEnd M L t start ≤ start + M + L := by
  unfold segEnd
  split_ifs with h1 h2 h3 h4
  · have hb := rfindLast_lt_length
      (sliceList t start (min (start + M + L) t.length)) periodChar
    rw [length_sliceList] at hb
    omega
  · have hb := rfindLast_lt_length (sliceList t start (start + M)) '\n'
    rw [length_sliceList] at hb
    omega
  all_goals omega

theorem segEnd_min_advance (M L : Nat) (t : List Char) (start : Nat) :
    start + min M (M / 2 + 2) ≤ segEnd M L t start := by
  unfold segEnd
  split_ifs with h1 h2 h3 h4 <;> omega

theorem segEnd_half (M L : Nat) (t : List Char) (start : Nat) (hM : 0 < M)
    (h : segEnd M L t start < t.length) : start + M / 2 < segEnd M L t start := by
  unfold segEnd at h ⊢
  split_ifs at h ⊢ <;> omega

theorem segChunksF_eq_filter (M L : Nat) (t : List Char) :
    ∀ fuel start, segChunksF M L t start fuel =
      (segSegsF M L t start fuel).filter (fun c => !(isBlank c)) := by
  intro fuel
  induction fuel with
  | zero => intro start; rfl
  | succ n ih =>
    intro start
    rw [segChunksF_succ, segSegsF_succ]
    by_cases h : start < t.length
    · rw [if_pos h, if_pos h, List.filter_cons]
      by_cases hb : isBlank (sliceList t start (segEnd M L t start))
      · rw [if_pos hb, hb]
        simp [ih]
      · rw [if_neg hb]
        simp only [Bool.not_eq_true] at hb
        rw [hb]
        simp [ih]
    · rw [if_neg h, if_neg h, List.filter_nil]

theorem flatten_segSegsF (M L : Nat) (t : List Char) (hM : 0 < M) :
    ∀ fuel start, t.length - start ≤ fuel →
      (segSegsF M L t start fuel).flatten = t.drop start := by
  intro fuel
  induction fuel with
  | zero =>
    intro start h
    rw [segSegsF_zero]
    simp [List.drop_eq_nil_of_le (by omega : t.length ≤ start)]
  | succ n ih =>
    intro start h
    rw [segSegsF_succ]
    by_cases hs : start < t.length
    · rw [if_pos hs, List.flatten_cons]
      have hgt := segEnd_gt M L t start hM
      rw [ih (segEnd M L t start) (by omega)]
      have key : List.drop (segEnd M L t start) t =
          List.drop (segEnd M L t start - start) (List.drop start t) := by
        rw [List.drop_drop]
        congr 1
        omega
      rw [sliceList, key, List.take_append_drop]
    · rw [if_neg hs, List.flatten_nil]
      rw [List.drop_eq_nil_of_le (by omega)]

theorem segChunksF_mem_length_le (M L : Nat) (t : List Char) :
    ∀ fuel start c, c ∈ segChunksF M L t start fuel → c.length ≤ M + L := by
  intro fuel
  induction fuel with
  | zero => intro start c h; simp [segChunksF_zero] at h
  | succ n ih =>
    intro start c h
    rw [segChunksF_succ] at h
    by_cases hs : start < t.length
    · rw [if_pos hs] at h
      by_cases hb : isBlank (sliceList t start (segEnd M L t start))
      · rw [if_pos hb] at h
        exact ih _ _ h
      · rw [if_neg hb] at h
        rcases List.mem_cons.mp h with rfl | h2
        · rw [length_sliceList]
          have := segEnd_le M L t start
          omega
        · exact ih _ _ h2
    · rw [if_neg hs] at h
      simp at h

theorem segChunksF_dropLast_half (M L : Nat) (t : List Char) (hM : 0 < M) :
    ∀ fuel start c, c ∈ (segChunksF M L t start fuel).dropLast → M / 2 < c.length := by
  intro fuel
  induction fuel with
  | zero => intro start c h; simp [segChunksF_zero] at h
  | succ n ih =>
    intro start c h
    rw [segChunksF_succ] at h
    by_cases hs : start < t.length
    · rw [if_pos hs] at h
      by_cases hb : isBlank (sliceList t start (segEnd M L t start))
      · rw [if_pos hb] at h
        exact ih _ _ h
      · rw [if_neg hb] at h
        cases hrest : segChunksF M L t (segEnd M L t start) n with
        | nil =>
          rw [hrest] at h
          simp at h
        | cons r rs =>
          rw [hrest] at h
          have hlt : segEnd M L t start < t.length := by
            by_contra hge
            rw [segChunksF_stop M L t _ n (by omega)] at hrest
            exact List.cons_ne_nil r rs hrest.symm
          rw [List.dropLast_cons₂] at h
          rcases List.mem_cons.mp h with rfl | h2
          · rw [length_sliceList]
            have := segEnd_half M L t start hM hlt
            omega
          · exact ih (segEnd M L t start) c (by rw [hrest]; exact h2)
    · rw [if_neg hs] at h
      simp at h

theorem segSegsF_length_le (M L : Nat) (t : List Char) (hM : 0 < M) :
    ∀ fuel start, t.length - start ≤ fuel →
      (segSegsF M L t start fuel).length ≤
        (t.length - start + min M (M / 2 + 2) - 1) / min M (M / 2 + 2) := by
  intro fuel
  induction fuel with
  | zero => intro start h; simp [segSegsF_zero]
  | succ n ih =>
    intro start h
    have hd1 : 0 < min M (M / 2 + 2) := by omega
    rw [segSegsF_succ]
    by_cases hs : start < t.length
    · rw [if_pos hs, List.length_cons]
      have hadv := segEnd_min_advance M L t start
      have hgt := segEnd_gt M L t start hM
      have hrec := ih (segEnd M L t start) (by omega)
      by_cases hcase : segEnd M L t start ≤ t.length
      · have hnum : t.length - segEnd M L t start + min M (M / 2 + 2) - 1 + min M (M / 2 + 2) ≤
            t.length - start + min M (M / 2 + 2) - 1 := by omega
        calc (segSegsF M L t (segEnd M L t start) n).length + 1
            ≤ (t.length - segEnd M L t start + min M (M / 2 + 2) - 1) / min M (M / 2 + 2) + 1 := by
              omega
          _ = (t.length - segEnd M L t start + min M (M / 2 + 2) - 1 + min M (M / 2 + 2)) /
                min M (M / 2 + 2) := by
              rw [Nat.add_div_right _ hd1]
          _ ≤ (t.length - start + min M (M / 2 + 2) - 1) / min M (M / 2 + 2) :=
              Nat.div_le_div_right hnum
      · have hzero : t.length - segEnd M L t start = 0 := by omega
        rw [hzero] at hrec
        have h1 : (0 + min M (M / 2 + 2) - 1) / min M (M / 2 + 2) = 0 :=
          Nat.div_eq_of_lt (by omega)
        rw [h1] at hrec
        have h2 : 1 ≤ (t.length - start + min M (M / 2 + 2) - 1) / min M (M / 2 + 2) := by
          rw [Nat.le_div_iff_mul_le hd1]
          omega
        omega
    · rw [if_neg hs]
      simp

theorem isBlank_flatten (ls : List (List Char)) (h : ∀ s ∈ ls, isBlank s = true) :
    isBlank ls.flatten = true := by
  induction ls with
  | nil => rfl
  | cons a as ih =>
    rw [List.flatten_cons]
    unfold isBlank at *
    rw [List.all_append, h a (by simp), ih (fun s hs => h s (by simp [hs]))]
    rfl

theorem startsWithStr_self_append (p r : List Char) : startsWithStr p (p ++ r) = true := by
  induction p with
  | nil => rfl
  | cons x xs ih => simp [startsWithStr, ih]

theorem containsSub_nil_pat (l : List Char) : containsSub [] l = true := by
  cases l <;> simp [containsSub, startsWithStr]

theorem containsSub_self_append (p r : List Char) : containsSub p (p ++ r) = true := by
  cases p with
  | nil => exact containsSub_nil_pat r
  | cons x xs =>
    rw [List.cons_append, containsSub, ← List.cons_append, startsWithStr_self_append,
      Bool.true_or]

theorem containsSub_append_left (p x l : List Char) (h : containsSub p l = true) :
    containsSub p (x ++ l) = true := by
  induction x with
  | nil => simpa using h
  | cons c cs ih => simp [containsSub, ih]

theorem startsWithStr_append_right (p : List Char) :
    ∀ l r, startsWithStr p l = true → startsWithStr p (l ++ r) = true := by
  induction p with
  | nil => intro l r _; rfl
  | cons x xs ih =>
    intro l r h
    cases l with
    | nil => simp [startsWithStr] at h
    | cons c cs =>
      rw [startsWithStr, Bool.and_eq_true] at h
      rw [List.cons_append, startsWithStr, h.1, ih cs r h.2]
      rfl

theorem containsSub_append_right (p : List Char) :
    ∀ l r, containsSub p l = true → containsSub p (l ++ r) = true := by
  intro l
  induction l with
  | nil =>
    intro r h
    cases p with
    | nil => exact containsSub_nil_pat r
    | cons x xs => simp [containsSub, startsWithStr] at h
  | cons c cs ih =>
    intro r h
    rw [containsSub, Bool.or_eq_true] at h
    rw [List.cons_append, containsSub, Bool.or_eq_true]
    rcases h with h | h
    · exact Or.inl (startsWithStr_append_right p (c :: cs) r h)
    · exact Or.inr (ih r h)

theorem containsSub_joinSep (sep kw : List Char) (kws : List (List Char)) (h : kw ∈ kws) :
    containsSub kw (joinSep sep kws) = true := by
  induction kws with
  | nil => simp at h
  | cons x xs ih =>
    cases xs with
    | nil =>
      simp at h
      subst h
      simpa using containsSub_self_append kw []
    | cons y ys =>
      rcases List.mem_cons.mp h with rfl | h2
      · rw [joinSep]
        exact containsSub_append_right kw _ _ (containsSub_self_append kw sep)
      · rw [joinSep]
        exact containsSub_append_left kw _ _ (ih h2)

theorem retryLoop_appended_length (oracle : Nat → List Char → OOutcome)
    (prompt chunk : List Char) :
    ∀ r k, 0 < r → (retryLoop oracle prompt chunk k r).appended.length = 1 := by
  intro r
  induction r with
  | zero => intro k h; omega
  | succ n ih =>
    intro k _
    rw [retryLoop]
    cases horacle : oracle k prompt with
    | ok text =>
      by_cases he : text.isEmpty <;> simp [he]
    | err msg =>
      by_cases hn : n = 0
      · subst hn; simp
      · simp only [if_neg hn]
        exact ih (k + 1) (by omega)

theorem runChunks_results_length (oracle : Nat → List Char → OOutcome) :
    ∀ cs k, (runChunks oracle cs k).results.length = cs.length := by
  intro cs
  induction cs with
  | nil => intro k; rfl
  | cons c cs ih =>
    intro k
    simp only [runChunks, List.length_append, List.length_cons]
    rw [retryLoop_appended_length oracle _ c 2 k (by omega), ih]
    omega

theorem segChunksF_pos (M L : Nat) (t : List Char) (start fuel : Nat) (h : 0 < fuel) :
    segChunksF M L t start fuel =
      if start < t.length then
        if isBlank (sliceList t start (segEnd M L t start)) then
          segChunksF M L t (segEnd M L t start) (fuel - 1)
        else
          sliceList t start (segEnd M L t start) ::
            segChunksF M L t (segEnd M L t start) (fuel - 1)
      else [] := by
  cases fuel with
  | zero => omega
  | succ n => simpa using segChunksF_succ M L t start n

/-- C4: if the oracle raises on every call, the Corrector's retry loop
returns the original chunk unchanged after exactly `maxRetries` oracle
calls (`r`, 2 in the source), having slept `5 * (maxRetries - 1)` seconds
between consecutive attempts (`retryDelaySeconds = 5` in the source) and
having logged one error per failed attempt; no error escapes the loop —
its result is a plain value. -/
theorem c4_corrector_exhausts_retries (oracle : Nat → List Char → OOutcome)
    (hfail : ∀ k p, (oracle k p).isErr = true) (prompt chunk : List Char) (k r : Nat)
    (hr : 0 < r) :
    retryLoop oracle prompt chunk k r = ⟨[chunk], r, 5 * (r - 1), r⟩ := by
  revert hr
  induction r generalizing k with
  | zero => intro h; omega
  | succ n ih =>
    intro _
    cases horacle : oracle k prompt with
    | ok text =>
      have hI := hfail k prompt
      rw [horacle] at hI
      simp [OOutcome.isErr] at hI
    | err msg =>
      simp only [retryLoop, horacle]
      by_cases hn : n = 0
      · subst hn
        norm_num
      · simp only [if_neg hn]
        rw [ih k.succ (by omega)]
        simp only [AttemptResult.mk.injEq, true_and, and_true]
        omega

theorem c4_corrector_exhausts_retries_witness :
    retryLoop (fun _ _ => OOutcome.err ("boom".data)) ("p".data) ("c".data) 0 2 =
      ⟨[("c".data)], 2, 5, 2⟩ :=
  c4_corrector_exhausts_retries (fun _ _ => OOutcome.err ("boom".data))
    (fun _ _ => rfl) ("p".data) ("c".data) 0 2 (by omega)

/-- C5: an oracle call that returns without error but with an empty/absent
result text is treated as success: the retry loop appends the original
chunk after a single oracle call, with no sleep and no error logged, and
on the short single-chunk path the corrected text equals the raw text. -/
theorem c5_empty_response_is_success (oracle : Nat → List Char → OOutcome)
    (prompt chunk rawText : List Char) (kws : List (List Char)) (k r : Nat)
    (hr : 0 < r) (hempty : oracle k prompt = OOutcome.ok [])
    (hshort : rawText.length ≤ 3000)
    (hempty0 : oracle 0 (buildShortPrompt rawText kws) = OOutcome.ok []) :
    retryLoop oracle prompt chunk k r = ⟨[chunk], 1, 0, 0⟩ ∧
    correctText oracle rawText kws = Except.ok rawText := by
  constructor
  · cases r with
    | zero => omega
    | succ n =>
      simp [retryLoop, hempty]
  · rw [correctText, if_neg (by omega), hempty0]
    rfl

theorem c5_empty_response_is_success_witness :
    retryLoop (fun _ _ => OOutcome.ok []) ("p".data) ("c".data) 0 2 =
      ⟨[("c".data)], 1, 0, 0⟩ ∧
    correctText (fun _ _ => OOutcome.ok []) ("hi".data) [] = Except.ok ("hi".data) :=
  c5_empty_response_is_success (fun _ _ => OOutcome.ok []) ("p".data) ("c".data)
    ("hi".data) [] 0 2 (by omega) rfl (by decide) rfl


theorem rfindLast_of_not_mem (l : List Char) (c : Char) (h : c ∉ l) :
    rfindLast l c = -1 := by
  induction l with
  | nil => rfl
  | cons x xs ih =>
    simp only [rfindLast, ih (fun hm => h (List.mem_cons_of_mem x hm))]
    rw [if_neg (by omega)]
    rw [if_neg ?_]
    simp only [beq_iff_eq]
    intro he
    exact h (by rw [← he]; exact List.mem_cons_self x xs)

theorem rfindLast_append_of_not_mem_right (l₁ l₂ : List Char) (c : Char) (h : c ∉ l₂) :
    rfindLast (l₁ ++ l₂) c = rfindLast l₁ c := by
  induction l₁ with
  | nil =>
    rw [List.nil_append, rfindLast_of_not_mem l₂ c h]
    rfl
  | cons x xs ih =>
    rw [List.cons_append]
    simp only [rfindLast, ih]

theorem rfindLast_append_pos (l₁ l₂ : List Char) (c : Char) (h : 0 ≤ rfindLast l₂ c) :
    rfindLast (l₁ ++ l₂) c = l₁.length + rfindLast l₂ c := by
  induction l₁ with
  | nil => simp
  | cons x xs ih =>
    rw [List.cons_append]
    simp only [rfindLast, ih]
    rw [if_pos (by omega)]
    simp only [List.length_cons]
    push_cast
    ring

theorem containsChar_eq_false (c : Char) (l : List Char) (h : c ∉ l) :
    containsChar c l = false := by
  simp only [containsChar, List.any_eq_false]
  intro x hx
  simp only [beq_iff_eq]
  intro he
  exact h (by rw [← he]; exact hx)

theorem isBlank_append (a b : List Char) :
    isBlank (a ++ b) = (isBlank a && isBlank b) := by
  simp [isBlank, List.all_append]

theorem isBlank_replicate_space (n : Nat) : isBlank (List.replicate n ' ') = true := by
  induction n with
  | zero => rfl
  | succ m ih =>
    rw [List.replicate_succ]
    simp only [isBlank, List.all_cons] at ih ⊢
    rw [ih]
    rfl

theorem isBlank_replicate_nonspace (c : Char) (n : Nat) (hc : pyIsSpace c = false)
    (hn : n ≠ 0) : isBlank (List.replicate n c) = false := by
  cases n with
  | zero => omega
  | succ m =>
    rw [List.replicate_succ]
    simp [isBlank, List.all_cons, hc]

theorem containsSub_of_head_not_mem (c : Char) (cs l : List Char) (h : c ∉ l) :
    containsSub (c :: cs) l = false := by
  induction l with
  | nil => rfl
  | cons x xs ih =>
    rw [containsSub, ih (fun hm => h (List.mem_cons_of_mem x hm)), Bool.or_false]
    rw [startsWithStr]
    have hx : (c == x) = false := by
      simp only [beq_eq_false_iff_ne, ne_eq]
      intro he
      exact h (by rw [he]; exact List.mem_cons_self x xs)
    rw [hx, Bool.false_and]

theorem not_mem_replicate_of_ne (c a : Char) (n : Nat) (h : c ≠ a) :
    c ∉ List.replicate n a := by
  rw [List.mem_replicate]
  rintro ⟨-, he⟩
  exact h he

theorem segEnd_allA_zero : segEnd 3000 500 (List.replicate 3001 'a') 0 = 3000 := by
  unfold segEnd
  rw [if_pos (by rw [List.length_replicate]; norm_num)]
  have hwin : sliceList (List.replicate 3001 'a') 0
      (min (0 + 3000 + 500) (List.replicate 3001 'a').length) = List.replicate 3001 'a' := by
    rw [sliceList, List.drop_zero, Nat.sub_zero, List.length_replicate]
    rw [show min (0 + 3000 + 500) 3001 = 3001 from by decide]
    rw [List.take_replicate]
    rw [show min 3001 3001 = 3001 from by decide]
  rw [hwin, rfindLast_of_not_mem _ _ (not_mem_replicate_of_ne _ _ _ (by decide))]
  rw [if_neg (by decide)]
  have hwin2 : sliceList (List.replicate 3001 'a') 0 (0 + 3000) = List.replicate 3000 'a' := by
    rw [sliceList, List.drop_zero, Nat.sub_zero, List.take_replicate]
    rw [show min (0 + 3000) 3001 = 3000 from by decide]
  rw [hwin2, containsChar_eq_false _ _ (not_mem_replicate_of_ne _ _ _ (by decide))]
  rw [if_neg (by decide)]

theorem segEnd_allA_3000 : segEnd 3000 500 (List.replicate 3001 'a') 3000 = 6000 := by
  unfold segEnd
  rw [if_neg (by rw [List.length_replicate]; norm_num)]

theorem segChunks_allA :
    segChunks 3000 500 (List.replicate 3001 'a') =
      [List.replicate 3000 'a', [('a' : Char)]] := by
  have hs1 : sliceList (List.replicate 3001 'a') 0 3000 = List.replicate 3000 'a' := by
    rw [sliceList, List.drop_zero, Nat.sub_zero, List.take_replicate]
    rw [show min 3000 3001 = 3000 from by decide]
  have hs2 : sliceList (List.replicate 3001 'a') 3000 6000 = [('a' : Char)] := by
    rw [sliceList, List.drop_replicate, List.take_replicate]
    rw [show min (6000 - 3000) (3001 - 3000) = 1 from by decide]
    rfl
  rw [segChunks]
  rw [show (List.replicate 3001 ('a' : Char)).length = 3001 from List.length_replicate 3001 'a']
  rw [segChunksF_pos _ _ _ _ _ (by norm_num)]
  rw [if_pos (by rw [List.length_replicate]; norm_num)]
  rw [segEnd_allA_zero, hs1]
  rw [if_neg (by rw [isBlank_replicate_nonspace 'a' 3000 rfl (by omega)]; decide)]
  rw [segChunksF_pos _ _ _ _ _ (by norm_num)]
  rw [if_pos (by rw [List.length_replicate]; norm_num)]
  rw [segEnd_allA_3000, hs2]
  rw [if_neg (by decide)]
  rw [segChunksF_stop _ _ _ _ _ (by rw [List.length_replicate]; norm_num)]

theorem segEnd_allSpace_zero : segEnd 3000 500 (List.replicate 3001 ' ') 0 = 3000 := by
  unfold segEnd
  rw [if_pos (by rw [List.length_replicate]; norm_num)]
  have hwin : sliceList (List.replicate 3001 ' ') 0
      (min (0 + 3000 + 500) (List.replicate 3001 ' ').length) = List.replicate 3001 ' ' := by
    rw [sliceList, List.drop_zero, Nat.sub_zero, List.length_replicate]
    rw [show min (0 + 3000 + 500) 3001 = 3001 from by decide]
    rw [List.take_replicate]
    rw [show min 3001 3001 = 3001 from by decide]
  rw [hwin, rfindLast_of_not_mem _ _ (not_mem_replicate_of_ne _ _ _ (by decide))]
  rw [if_neg (by decide)]
  have hwin2 : sliceList (List.replicate 3001 ' ') 0 (0 + 3000) = List.replicate 3000 ' ' := by
    rw [sliceList, List.drop_zero, Nat.sub_zero, List.take_replicate]
    rw [show min (0 + 3000) 3001 = 3000 from by decide]
  rw [hwin2, containsChar_eq_false _ _ (not_mem_replicate_of_ne _ _ _ (by decide))]
  rw [if_neg (by decide)]

theorem segEnd_allSpace_3000 : segEnd 3000 500 (List.replicate 3001 ' ') 3000 = 6000 := by
  unfold segEnd
  rw [if_neg (by rw [List.length_replicate]; norm_num)]

theorem segChunks_allSpace : segChunks 3000 500 (List.replicate 3001 ' ') = [] := by
  have hs1 : sliceList (List.replicate 3001 ' ') 0 3000 = List.replicate 3000 ' ' := by
    rw [sliceList, List.drop_zero, Nat.sub_zero, List.take_replicate]
    rw [show min 3000 3001 = 3000 from by decide]
  have hs2 : sliceList (List.replicate 3001 ' ') 3000 6000 = [(' ' : Char)] := by
    rw [sliceList, List.drop_replicate, List.take_replicate]
    rw [show min (6000 - 3000) (3001 - 3000) = 1 from by decide]
    rfl
  rw [segChunks]
  rw [show (List.replicate 3001 (' ' : Char)).length = 3001 from List.length_replicate 3001 ' ']
  rw [segChunksF_pos _ _ _ _ _ (by norm_num)]
  rw [if_pos (by rw [List.length_replicate]; norm_num)]
  rw [segEnd_allSpace_zero, hs1]
  rw [if_pos (isBlank_replicate_space 3000)]
  rw [segChunksF_pos _ _ _ _ _ (by norm_num)]
  rw [if_pos (by rw [List.length_replicate]; norm_num)]
  rw [segEnd_allSpace_3000, hs2]
  rw [if_pos (by decide)]
  rw [segChunksF_stop _ _ _ _ _ (by rw [List.length_replicate]; norm_num)]

/-- C9: every chunk the Segmenter emits is at most `maxChunkSize + lookahead`
characters long (at the source's constants, at most 3000 + 500 = 3500). -/
theorem c9_chunk_size_bound (M L : Nat) (t c : List Char) (h : c ∈ segChunks M L t) :
    c.length ≤ M + L :=
  segChunksF_mem_length_le M L t t.length 0 c h

theorem c9_chunk_size_bound_witness :
    (List.replicate 3000 'a').length ≤ 3000 + 500 :=
  c9_chunk_size_bound 3000 500 (List.replicate 3001 'a') (List.replicate 3000 'a')
    (by rw [segChunks_allA]; exact List.mem_cons_self _ _)

/-- C10 (implicit): every chunk the Segmenter emits, except possibly the
final one, is strictly longer than `maxChunkSize / 2` characters (more
than 1500 at the source's constants): a sentence-mark or line-break
boundary is only accepted past offset `maxChunkSize / 2`, and the hard
cut advances by the full `maxChunkSize`. -/
theorem c10_nonfinal_chunk_exceeds_half (M L : Nat) (t c : List Char) (hM : 0 < M)
    (h : c ∈ (segChunks M L t).dropLast) : M / 2 < c.length :=
  segChunksF_dropLast_half M L t hM t.length 0 c h

theorem c10_nonfinal_chunk_exceeds_half_witness :
    3000 / 2 < (List.replicate 3000 'a').length :=
  c10_nonfinal_chunk_exceeds_half 3000 500 (List.replicate 3001 'a')
    (List.replicate 3000 'a') (by omega) (by rw [segChunks_allA]; exact List.mem_cons_self _ _)

/-- C6 (amended): for every input text longer than `maxChunkSize` that
contains at least one non-whitespace character, the Segmenter emits a
non-empty chunk sequence; the original claim fails for whitespace-only
input, where every window is dropped by the blank filter (line 317) and
the chunk sequence is empty. -/
theorem c6_nonblank_input_has_chunks (M L : Nat) (t : List Char) (hM : 0 < M)
    (hlen : M < t.length) (hb : isBlank t = false) : segChunks M L t ≠ [] := by
  intro hnil
  rw [segChunks, segChunksF_eq_filter] at hnil
  have hall : ∀ s ∈ segSegsF M L t 0 t.length, isBlank s = true := by
    intro s hs
    have h2 := List.filter_eq_nil_iff.mp hnil s hs
    simpa using h2
  have hflat := flatten_segSegsF M L t hM t.length 0 (by omega)
  have hbl := isBlank_flatten _ hall
  rw [hflat, List.drop_zero] at hbl
  rw [hb] at hbl
  exact Bool.false_ne_true hbl

theorem c6_nonblank_input_has_chunks_witness :
    segChunks 3000 500 (List.replicate 3001 'a') ≠ [] :=
  c6_nonblank_input_has_chunks 3000 500 (List.replicate 3001 'a') (by omega)
    (by rw [List.length_replicate]; norm_num) (isBlank_replicate_nonspace 'a' 3001 rfl (by omega))

/-- C6 (counterexample): a whitespace-only input of 3001 characters is
non-empty and longer than `maxChunkSize`, yet the Segmenter emits the
empty chunk sequence, refuting the claim as stated. -/
theorem c6_blank_input_counterexample :
    List.replicate 3001 ' ' ≠ ([] : List Char) ∧
    3000 < (List.replicate 3001 ' ').length ∧
    segChunks 3000 500 (List.replicate 3001 ' ') = [] := by
  refine ⟨?_, ?_, segChunks_allSpace⟩
  · intro h
    have h2 := congrArg List.length h
    rw [List.length_replicate, List.length_nil] at h2
    omega
  · rw [List.length_replicate]
    norm_num

theorem c3text_length : c3text.length = 6100 := by
  rw [c3text, List.length_append, List.length_append, List.length_replicate,
    List.length_replicate, List.length_replicate]

theorem c3_slice_0_3500 : sliceList c3text 0 3500 =
    List.replicate 3000 'a' ++ List.replicate 500 ' ' := by
  rw [sliceList, List.drop_zero, Nat.sub_zero, c3text]
  rw [List.take_append_eq_append_take, List.take_append_eq_append_take]
  rw [List.take_replicate, List.take_replicate, List.take_replicate]
  norm_num [List.replicate_zero]

theorem c3_slice_0_3000 : sliceList c3text 0 3000 = List.replicate 3000 'a' := by
  rw [sliceList, List.drop_zero, Nat.sub_zero, c3text]
  rw [List.take_append_eq_append_take, List.take_append_eq_append_take]
  rw [List.take_replicate, List.take_replicate, List.take_replicate]
  norm_num [List.replicate_zero]

theorem c3_drop_3000 : c3text.drop 3000 = List.replicate 3000 ' ' ++ List.replicate 100 'b' := by
  rw [c3text, List.append_assoc]
  exact List.drop_left' (by rw [List.length_replicate])

theorem c3_slice_3000_6100 : sliceList c3text 3000 6100 =
    List.replicate 3000 ' ' ++ List.replicate 100 'b' := by
  rw [sliceList, c3_drop_3000]
  rw [List.take_append_eq_append_take, List.take_replicate, List.take_replicate,
    List.length_replicate]
  norm_num

theorem c3_slice_3000_6000 : sliceList c3text 3000 6000 = List.replicate 3000 ' ' := by
  rw [sliceList, c3_drop_3000]
  rw [List.take_append_eq_append_take, List.take_replicate, List.take_replicate,
    List.length_replicate]
  norm_num

theorem c3_drop_6000 : c3text.drop 6000 = List.replicate 100 'b' := by
  rw [c3text]
  exact List.drop_left'
    (by rw [List.length_append, List.length_replicate, List.length_replicate])

theorem c3_slice_6000_9000 : sliceList c3text 6000 9000 = List.replicate 100 'b' := by
  rw [sliceList, c3_drop_6000, List.take_replicate]
  norm_num

theorem segEnd_c3_zero : segEnd 3000 500 c3text 0 = 3000 := by
  unfold segEnd
  simp only [Nat.zero_add]
  rw [if_pos (by rw [c3text_length]; norm_num)]
  rw [show min (3000 + 500) c3text.length = 3500 from by rw [c3text_length]; decide]
  rw [c3_slice_0_3500]
  rw [rfindLast_of_not_mem _ _ ?notmem1]
  case notmem1 =>
    intro hm
    rcases List.mem_append.mp hm with h | h
    · exact not_mem_replicate_of_ne _ _ _ (by decide) h
    · exact not_mem_replicate_of_ne _ _ _ (by decide) h
  rw [if_neg (by decide)]
  rw [c3_slice_0_3000]
  rw [containsChar_eq_false _ _ (not_mem_replicate_of_ne _ _ _ (by decide))]
  rw [if_neg (by simp)]

theorem segEnd_c3_3000 : segEnd 3000 500 c3text 3000 = 6000 := by
  unfold segEnd
  rw [if_pos (by rw [c3text_length]; norm_num)]
  rw [show min (3000 + 3000 + 500) c3text.length = 6100 from by rw [c3text_length]; decide]
  rw [c3_slice_3000_6100]
  rw [rfindLast_of_not_mem _ _ ?notmem2]
  case notmem2 =>
    intro hm
    rcases List.mem_append.mp hm with h | h
    · exact not_mem_replicate_of_ne _ _ _ (by decide) h
    · exact not_mem_replicate_of_ne _ _ _ (by decide) h
  rw [if_neg (by decide)]
  rw [show (3000 : Nat) + 3000 = 6000 from rfl]
  rw [c3_slice_3000_6000]
  rw [containsChar_eq_false _ _ (not_mem_replicate_of_ne _ _ _ (by decide))]
  rw [if_neg (by simp)]

theorem segEnd_c3_6000 : segEnd 3000 500 c3text 6000 = 9000 := by
  unfold segEnd
  rw [if_neg (by rw [c3text_length]; norm_num)]

theorem segChunks_c3text : segChunks 3000 500 c3text =
    [List.replicate 3000 'a', List.replicate 100 'b'] := by
  rw [segChunks, c3text_length]
  rw [segChunksF_pos _ _ _ _ _ (by norm_num)]
  rw [if_pos (by rw [c3text_length]; norm_num)]
  rw [segEnd_c3_zero, c3_slice_0_3000]
  rw [if_neg (by rw [isBlank_replicate_nonspace 'a' 3000 rfl (by omega)]; simp)]
  rw [segChunksF_pos _ _ _ _ _ (by norm_num)]
  rw [if_pos (by rw [c3text_length]; norm_num)]
  rw [segEnd_c3_3000, c3_slice_3000_6000]
  rw [if_pos (isBlank_replicate_space 3000)]
  rw [segChunksF_pos _ _ _ _ _ (by norm_num)]
  rw [if_pos (by rw [c3text_length]; norm_num)]
  rw [segEnd_c3_6000, c3_slice_6000_9000]
  rw [if_neg (by rw [isBlank_replicate_nonspace 'b' 100 rfl (by omega)]; simp)]
  rw [segChunksF_stop _ _ _ _ _ (by rw [c3text_length]; norm_num)]

/-- C3 (amended): concatenating the Segmenter's chunks in order reproduces
`t` exactly except that every whitespace-only window — wherever it occurs,
not only at the ends — is dropped: the loop's windows concatenate to `t`,
and the emitted chunks are exactly the non-blank windows. -/
theorem c3_concat_drops_blank_windows (M L : Nat) (t : List Char) (hM : 0 < M)
    (hlen : M < t.length) :
    (segSegs M L t).flatten = t ∧
    segChunks M L t = (segSegs M L t).filter (fun c => !(isBlank c)) := by
  constructor
  · have h := flatten_segSegsF M L t hM t.length 0 (by omega)
    rw [segSegs, h, List.drop_zero]
  · rw [segChunks, segSegs, segChunksF_eq_filter]

theorem c3_concat_drops_blank_windows_witness :
    (segSegs 3000 500 (List.replicate 3001 'a')).flatten = List.replicate 3001 'a' ∧
    segChunks 3000 500 (List.replicate 3001 'a') =
      (segSegs 3000 500 (List.replicate 3001 'a')).filter (fun c => !(isBlank c)) :=
  c3_concat_drops_blank_windows 3000 500 (List.replicate 3001 'a') (by omega)
    (by rw [List.length_replicate]; norm_num)

/-- C3 (counterexample): for `c3text` — 3000 `a`s, 3000 spaces, 100 `b`s —
the Segmenter drops the whitespace-only middle window, so no decomposition
`t = u ++ (concatenation of chunks) ++ v` with whitespace-only `u` and `v`
exists: concatenation does not reproduce the text even after allowing for
dropped leading/trailing whitespace-only chunks. -/
theorem c3_internal_blank_dropped_counterexample :
    ¬ ∃ u v : List Char, isBlank u = true ∧ isBlank v = true ∧
        c3text = u ++ (segChunks 3000 500 c3text).flatten ++ v := by
  have hch : (segChunks 3000 500 c3text).flatten =
      List.replicate 3000 'a' ++ List.replicate 100 'b' := by
    rw [segChunks_c3text, List.flatten_cons, List.flatten_cons, List.flatten_nil,
      List.append_nil]
  rintro ⟨u, v, hu, hv, heq⟩
  rw [hch] at heq
  cases u with
  | cons x u' =>
    have hhead := congrArg List.head? heq
    rw [List.cons_append, List.cons_append, List.head?_cons] at hhead
    have hx : c3text.head? = some 'a' := by
      rw [c3text]
      rw [show List.replicate 3000 ('a' : Char) = 'a' :: List.replicate 2999 'a' from rfl]
      rw [List.cons_append, List.cons_append, List.head?_cons]
    rw [hx] at hhead
    have hxa : x = 'a' := (Option.some.inj hhead).symm
    rw [hxa] at hu
    rw [isBlank, List.all_cons] at hu
    rw [show pyIsSpace 'a' = false from rfl, Bool.false_and] at hu
    exact Bool.false_ne_true hu
  | nil =>
    rw [List.nil_append] at heq
    have hdrop := congrArg (List.drop 3000) heq
    have hL : List.drop 3000 c3text = List.replicate 3000 ' ' ++ List.replicate 100 'b' :=
      c3_drop_3000
    have hR : List.drop 3000 ((List.replicate 3000 'a' ++ List.replicate 100 'b') ++ v) =
        List.replicate 100 'b' ++ v := by
      rw [List.append_assoc]
      exact List.drop_left' (by rw [List.length_replicate])
    rw [hL, hR] at hdrop
    have hhead := congrArg List.head? hdrop
    rw [show List.replicate 3000 (' ' : Char) = ' ' :: List.replicate 2999 ' ' from rfl] at hhead
    rw [show List.replicate 100 ('b' : Char) = 'b' :: List.replicate 99 'b' from rfl] at hhead
    rw [List.cons_append, List.cons_append, List.head?_cons, List.head?_cons] at hhead
    exact absurd (Option.some.inj hhead) (by decide)

/-- C7 (amended): the Segmenter terminates because the cursor strictly
increases on every iteration (`end > cursor` whenever `maxChunkSize > 0`),
and the loop runs at most `⌈len(t) / min maxChunkSize (maxChunkSize/2 + 2)⌉`
iterations — each iteration advances the cursor by more than
`maxChunkSize / 2` (or by the full `maxChunkSize` at a hard cut), not far
enough to bound the iteration count by `⌈len(t)/maxChunkSize⌉ + O(1)`. -/
theorem c7_termination_and_iteration_bound (M L start : Nat) (t : List Char) (hM : 0 < M) :
    start < segEnd M L t start ∧
    segIterations M L t ≤
      (t.length + min M (M / 2 + 2) - 1) / min M (M / 2 + 2) := by
  refine ⟨segEnd_gt M L t start hM, ?_⟩
  have h := segSegsF_length_le M L t hM t.length 0 (by omega)
  rw [Nat.sub_zero] at h
  exact h

theorem c7_termination_and_iteration_bound_witness :
    0 < segEnd 3000 500 ("ab".data) 0 ∧
    segIterations 3000 500 ("ab".data) ≤
      (("ab".data).length + min 3000 (3000 / 2 + 2) - 1) / min 3000 (3000 / 2 + 2) :=
  c7_termination_and_iteration_bound 3000 500 0 ("ab".data) (by omega)

/-- C7 (counterexample): for blocks of sixteen `a`s and a newline with
`maxChunkSize = 30` and proportional lookahead 5, every line-break boundary
sits just past `maxChunkSize / 2`, so the 850-character `c7text` takes 50
iterations while `⌈850 / 30⌉ + 20 = 49`: the loop exceeds
`⌈len(t)/maxChunkSize⌉` by more than any small constant (the excess grows
linearly in the number of blocks). -/
theorem c7_iteration_bound_counterexample :
    c7text.length = 850 ∧ segIterations 30 5 c7text = 50 ∧
    (c7text.length + 30 - 1) / 30 + 20 < segIterations 30 5 c7text := by
  decide

/-- C2 (amended): the keywords are supplied verbatim in the payload on the
short single-chunk path only — every keyword of a non-empty keyword list
occurs verbatim in `buildShortPrompt`; the multi-chunk per-chunk payload
omits them (the counterexample below). -/
theorem c2_short_path_keywords_verbatim (rawText kw : List Char) (kws : List (List Char))
    (h : kw ∈ kws) : containsSub kw (buildShortPrompt rawText kws) = true := by
  have hne : kws.isEmpty = false := by
    cases kws with
    | nil => simp at h
    | cons a as => rfl
  rw [buildShortPrompt, hne]
  rw [if_neg (by simp)]
  apply containsSub_append_right
  apply containsSub_append_right
  apply containsSub_append_right
  apply containsSub_append_left
  apply containsSub_append_right
  apply containsSub_append_left
  exact containsSub_joinSep (", ".data) kw kws h

theorem c2_short_path_keywords_verbatim_witness :
    containsSub ("Kubernetes".data)
      (buildShortPrompt ("hello".data) [("Kubernetes".data), ("etcd".data)]) = true :=
  c2_short_path_keywords_verbatim ("hello".data) ("Kubernetes".data)
    [("Kubernetes".data), ("etcd".data)] (by simp)

/-- C2 (counterexample): on the multi-chunk path (raw text of 3001
characters, so longer than `MAX_CHUNK_SIZE`), no per-chunk payload contains
the keyword "Kubernetes" or "etcd" — the concise chunk template of lines
328-334 never mentions the keyword list, refuting the claim for the
multi-chunk path. -/
theorem c2_multi_path_omits_keywords_counterexample :
    3000 < (List.replicate 3001 'a').length ∧
    ∀ p ∈ multiChunkPrompts (List.replicate 3001 'a'),
      containsSub ("Kubernetes".data) p = false ∧
      containsSub ("etcd".data) p = false := by
  refine ⟨by rw [List.length_replicate]; norm_num, ?_⟩
  intro p hp
  rw [multiChunkPrompts, segChunks_allA] at hp
  simp only [List.map_cons, List.map_nil, List.mem_cons, List.not_mem_nil, or_false] at hp
  have hK : ∀ chunk : List Char, ('K' : Char) ∉ chunk →
      containsSub ("Kubernetes".data) (buildChunkPrompt chunk) = false := by
    intro chunk hc
    show containsSub ('K' :: ("ubernetes".data)) (buildChunkPrompt chunk) = false
    apply containsSub_of_head_not_mem
    intro hm
    rw [buildChunkPrompt] at hm
    rcases List.mem_append.mp hm with h1 | h2
    · rcases List.mem_append.mp h1 with h3 | h4
      · exact absurd h3 (by decide)
      · exact hc h4
    · exact absurd h2 (by decide)
  have hE : ∀ chunk : List Char, ('e' : Char) ∉ chunk →
      containsSub ("etcd".data) (buildChunkPrompt chunk) = false := by
    intro chunk hc
    show containsSub ('e' :: ("tcd".data)) (buildChunkPrompt chunk) = false
    apply containsSub_of_head_not_mem
    intro hm
    rw [buildChunkPrompt] at hm
    rcases List.mem_append.mp hm with h1 | h2
    · rcases List.mem_append.mp h1 with h3 | h4
      · exact absurd h3 (by decide)
      · exact hc h4
    · exact absurd h2 (by decide)
  rcases hp with rfl | rfl
  · exact ⟨hK _ (not_mem_replicate_of_ne _ _ _ (by decide)),
      hE _ (not_mem_replicate_of_ne _ _ _ (by decide))⟩
  · exact ⟨hK _ (fun hm => absurd hm (by decide)),
      hE _ (fun hm => absurd hm (by decide))⟩

/-- C1 (amended): on the multi-chunk path (`len(rawText) > 3000`) every
oracle behaviour yields exactly one CorrectionResult per Segmenter chunk
and the Pipeline returns the join of those results — no error can escape;
but on the short single-chunk path an oracle error is not absorbed: it
propagates as an HTTP-level error response classified from the message
(src/main.py lines 398-410). -/
theorem c1_multi_absorbs_short_raises (oracle : Nat → List Char → OOutcome)
    (rawText rawShort msg : List Char) (kws kwsS : List (List Char))
    (hlong : 3000 < rawText.length) (hshort : rawShort.length ≤ 3000)
    (herr : oracle 0 (buildShortPrompt rawShort kwsS) = OOutcome.err msg) :
    (runChunks oracle (segChunks 3000 500 rawText) 0).results.length
        = (segChunks 3000 500 rawText).length ∧
    correctText oracle rawText kws =
      Except.ok (joinSep ("\n\n".data)
        (runChunks oracle (segChunks 3000 500 rawText) 0).results) ∧
    correctText oracle rawShort kwsS = Except.error (classifyGeminiError msg) := by
  refine ⟨runChunks_results_length oracle _ 0, ?_, ?_⟩
  · rw [correctText, if_pos hlong]
  · rw [correctText, if_neg (by omega), herr]

theorem c1_multi_absorbs_short_raises_witness :
    (runChunks (fun _ _ => OOutcome.err ("e".data))
        (segChunks 3000 500 (List.replicate 3001 'a')) 0).results.length
        = (segChunks 3000 500 (List.replicate 3001 'a')).length ∧
    correctText (fun _ _ => OOutcome.err ("e".data)) (List.replicate 3001 'a') [] =
      Except.ok (joinSep ("\n\n".data)
        (runChunks (fun _ _ => OOutcome.err ("e".data))
          (segChunks 3000 500 (List.replicate 3001 'a')) 0).results) ∧
    correctText (fun _ _ => OOutcome.err ("e".data)) ("hi".data) [] =
      Except.error (classifyGeminiError ("e".data)) :=
  c1_multi_absorbs_short_raises (fun _ _ => OOutcome.err ("e".data))
    (List.replicate 3001 'a') ("hi".data) ("e".data) [] []
    (by rw [List.length_replicate]; norm_num) (by decide) rfl

/-- C1 (counterexample): a short request ("hello") with an always-failing
oracle makes `correct_text` return an HTTP error, not the original text:
the error is propagated past the Pipeline on the single-chunk path,
refuting the claim as stated. -/
theorem c1_short_path_error_counterexample :
    correctText (fun _ _ => OOutcome.err ("boom".data)) ("hello".data) [] =
      Except.error (CorrError.generic ("boom".data)) := rfl


theorem c8good_length : c8goodText.length = 6000 := by
  rw [c8goodText, List.length_append, List.length_append, List.length_replicate,
    List.length_replicate, List.length_cons, List.length_nil]

theorem c8_ag_length : (List.replicate 3100 'a' ++ [periodChar]).length = 3101 := by
  rw [List.length_append, List.length_replicate, List.length_cons, List.length_nil]

theorem c8good_rfind : rfindLast (sliceList c8goodText 0 3500) periodChar = 3100 := by
  have hslice : sliceList c8goodText 0 3500 =
      (List.replicate 3100 'a' ++ [periodChar]) ++ List.replicate 399 'b' := by
    rw [sliceList, List.drop_zero, Nat.sub_zero, c8goodText]
    rw [List.take_append_eq_append_take]
    rw [List.take_of_length_le (by rw [c8_ag_length]; norm_num)]
    rw [List.take_replicate, c8_ag_length]
    norm_num
  rw [hslice]
  rw [rfindLast_append_of_not_mem_right _ _ _ (not_mem_replicate_of_ne _ _ _ (by decide))]
  rw [rfindLast_append_pos _ _ _
    (by rw [show rfindLast [periodChar] periodChar = 0 from rfl])]
  rw [show rfindLast [periodChar] periodChar = 0 from rfl, List.length_replicate]
  norm_num

theorem c8good_tail : sliceList c8goodText 3101 6000 = List.replicate 2899 'b' := by
  rw [sliceList, c8goodText]
  rw [List.drop_left' c8_ag_length]
  rw [List.take_replicate]
  norm_num

theorem c8blank_length : c8blankText.length = 6000 := by
  rw [c8blankText, List.length_append, List.length_append, List.length_replicate,
    List.length_replicate, List.length_cons, List.length_nil]

theorem c8blank_rfind : rfindLast (sliceList c8blankText 0 3500) periodChar = 3100 := by
  have hslice : sliceList c8blankText 0 3500 =
      (List.replicate 3100 'a' ++ [periodChar]) ++ List.replicate 399 ' ' := by
    rw [sliceList, List.drop_zero, Nat.sub_zero, c8blankText]
    rw [List.take_append_eq_append_take]
    rw [List.take_of_length_le (by rw [c8_ag_length]; norm_num)]
    rw [List.take_replicate, c8_ag_length]
    norm_num
  rw [hslice]
  rw [rfindLast_append_of_not_mem_right _ _ _ (not_mem_replicate_of_ne _ _ _ (by decide))]
  rw [rfindLast_append_pos _ _ _
    (by rw [show rfindLast [periodChar] periodChar = 0 from rfl])]
  rw [show rfindLast [periodChar] periodChar = 0 from rfl, List.length_replicate]
  norm_num

theorem c8blank_chunk1 : sliceList c8blankText 0 3101 =
    List.replicate 3100 'a' ++ [periodChar] := by
  rw [sliceList, List.drop_zero, Nat.sub_zero, c8blankText]
  rw [List.take_append_of_le_length (by rw [c8_ag_length])]
  rw [List.take_of_length_le (by rw [c8_ag_length])]

theorem c8blank_chunk2 : sliceList c8blankText 3101 6101 = List.replicate 2899 ' ' := by
  rw [sliceList, c8blankText]
  rw [List.drop_left' c8_ag_length]
  rw [List.take_replicate]
  norm_num

theorem segChunks_c8blank : segChunks 3000 500 c8blankText =
    [List.replicate 3100 'a' ++ [periodChar]] := by
  have hE1 : segEnd 3000 500 c8blankText 0 = 3101 := by
    unfold segEnd
    simp only [Nat.zero_add]
    rw [if_pos (by rw [c8blank_length]; norm_num)]
    rw [show min (3000 + 500) c8blankText.length = 3500 from by rw [c8blank_length]; decide]
    rw [c8blank_rfind]
    rw [if_pos (by decide)]
    decide
  have hE2 : segEnd 3000 500 c8blankText 3101 = 6101 := by
    unfold segEnd
    rw [if_neg (by rw [c8blank_length]; norm_num)]
  rw [segChunks, c8blank_length]
  rw [segChunksF_pos _ _ _ _ _ (by norm_num)]
  rw [if_pos (by rw [c8blank_length]; norm_num)]
  rw [hE1, c8blank_chunk1]
  rw [if_neg (by rw [isBlank_append, isBlank_replicate_nonspace 'a' 3100 rfl (by omega),
    Bool.false_and]; decide)]
  rw [segChunksF_pos _ _ _ _ _ (by norm_num)]
  rw [if_pos (by rw [c8blank_length]; norm_num)]
  rw [hE2, c8blank_chunk2]
  rw [if_pos (isBlank_replicate_space 2899)]
  rw [segChunksF_stop _ _ _ _ _ (by rw [c8blank_length]; norm_num)]

/-- C8 (amended): for a 6000-character text whose last sentence-ending mark
in the first search window `[0, 3500)` sits at offset 3100, the Segmenter
produces exactly two chunks — `t[0:3101]` (ending just after the mark) and
`t[3101:6000]` (the remainder) — provided the remainder is not
whitespace-only; a whitespace-only remainder is dropped (the
counterexample below), leaving a single chunk. -/
theorem c8_two_chunk_scenario (t : List Char) (hlen : t.length = 6000)
    (hp : rfindLast (sliceList t 0 3500) periodChar = 3100)
    (hnb : isBlank (sliceList t 3101 6000) = false) :
    segChunks 3000 500 t = [sliceList t 0 3101, sliceList t 3101 6000] := by
  have hE1 : segEnd 3000 500 t 0 = 3101 := by
    unfold segEnd
    simp only [Nat.zero_add]
    rw [if_pos (by rw [hlen]; norm_num)]
    rw [show min (3000 + 500) t.length = 3500 from by rw [hlen]; decide]
    rw [hp]
    rw [if_pos (by decide)]
    decide
  have hE2 : segEnd 3000 500 t 3101 = 6101 := by
    unfold segEnd
    rw [if_neg (by rw [hlen]; norm_num)]
  have hget2 : (sliceList t 0 3101)[(3100 : Nat)]? = some periodChar := by
    have h0 := rfindLast_getElem (sliceList t 0 3500) periodChar (by rw [hp]; decide)
    rw [hp] at h0
    rw [show ((3100 : Int)).toNat = 3100 from rfl] at h0
    rw [sliceList, List.drop_zero, Nat.sub_zero] at h0 ⊢
    rw [List.getElem?_take_of_lt (by norm_num)] at h0
    rw [List.getElem?_take_of_lt (by norm_num)]
    exact h0
  have hmem : periodChar ∈ sliceList t 0 3101 := by
    obtain ⟨hlt, hgetEq⟩ := List.getElem?_eq_some_iff.mp hget2
    rw [← hgetEq]
    exact List.getElem_mem hlt
  have hnb1 : isBlank (sliceList t 0 3101) = false := by
    by_contra hcon
    rw [Bool.not_eq_false, isBlank, List.all_eq_true] at hcon
    exact absurd (hcon periodChar hmem) (by decide)
  have hc2 : sliceList t 3101 6101 = sliceList t 3101 6000 := by
    rw [sliceList, sliceList]
    rw [List.take_of_length_le (by rw [List.length_drop, hlen]; norm_num),
      List.take_of_length_le (by rw [List.length_drop, hlen])]
  rw [segChunks, hlen]
  rw [segChunksF_pos _ _ _ _ _ (by norm_num)]
  rw [if_pos (by rw [hlen]; norm_num)]
  rw [hE1]
  rw [if_neg (by rw [hnb1]; decide)]
  rw [segChunksF_pos _ _ _ _ _ (by norm_num)]
  rw [if_pos (by rw [hlen]; norm_num)]
  rw [hE2, hc2]
  rw [if_neg (by rw [hnb]; decide)]
  rw [segChunksF_stop _ _ _ _ _ (by rw [hlen]; norm_num)]

theorem c8_two_chunk_scenario_witness :
    segChunks 3000 500 c8goodText =
      [sliceList c8goodText 0 3101, sliceList c8goodText 3101 6000] :=
  c8_two_chunk_scenario c8goodText c8good_length c8good_rfind
    (by rw [c8good_tail]; exact isBlank_replicate_nonspace 'b' 2899 rfl (by omega))

/-- C8 (counterexample): `c8blankText` has 6000 characters and its last
sentence-ending mark in the first search window at offset 3100, yet the
Segmenter produces one chunk, not two: the whitespace-only remainder after
the mark is dropped by the blank filter. -/
theorem c8_blank_tail_counterexample :
    c8blankText.length = 6000 ∧
    rfindLast (sliceList c8blankText 0 3500) periodChar = 3100 ∧
    (segChunks 3000 500 c8blankText).length = 1 := by
  refine ⟨c8blank_length, c8blank_rfind, ?_⟩
  rw [segChunks_c8blank]
  rfl
